import Mathlib

/-!
Shallow embedding of the work-assignment engine of the annotator
repository (`src/db_utils.py`, `src/database.py`, `src/main.py`).

All engine operations are scoped to one `language` (the spec's "group"),
so the embedding fixes the group and models the `source_sentences` table
as the list of that group's rows in insertion order.  The code stores
`sentence_id` as `str(n)` for a positive integer `n` and always compares
or orders it via `CAST(sentence_id AS INTEGER)`; the embedding keeps the
integer itself.  The `translations` table (the ledger) is modelled as a
list in insertion order; its `submitted_at` wall-clock column carries no
logic and is omitted.
-/

/-- One row of `source_sentences`, restricted to a fixed language. -/
structure Item where
  sentence_id : Nat
  text : String
  status : String
  assigned_to : String
deriving Repr, DecidableEq

/-- One row of `translations`, restricted to a fixed language
(`submitted_at` omitted, see the module comment). -/
structure LedgerEntry where
  sentence_id : Nat
  source_text : String
  translated_text : String
  username : String
deriving Repr, DecidableEq

/-- The two tables the engine mutates, restricted to a fixed language. -/
structure ServerState where
  items : List Item
  ledger : List LedgerEntry
deriving Repr, DecidableEq

/-! ### Import pipeline (`db_utils.import_source_sentences`) -/

/-- One CSV data row as produced by `csv.DictReader`: the values of the
three recognized columns (`none` when the column is absent). -/
structure Row where
  text : Option String
  sentence : Option String
  source : Option String
deriving Repr, DecidableEq

/-- An uploaded CSV: its header and its data rows.  An empty file or a
file without a header is modelled by `fieldnames = []` (in the code both
fail validation before any database access, as does a byte-level decode
error, which has no counterpart in this embedding). -/
structure Upload where
  fieldnames : List String
  rows : List Row
deriving Repr, DecidableEq

def required_cols : List String := ["text", "sentence", "source"]

/-- The pre-database validation of `import_source_sentences`: empty file
or missing header, none of the recognized columns, or no data rows. -/
def import_validate (u : Upload) : Option String :=
  if u.fieldnames.isEmpty then
    some "The uploaded file is not a valid CSV or has no header."
  else if !(required_cols.any fun c => u.fieldnames.contains c) then
    some "CSV must contain one of the following columns: text, sentence, source"
  else if u.rows.isEmpty then
    some "The uploaded CSV file contains no data rows."
  else
    none

/-- Python's `str.strip()` with no argument: remove leading and trailing
whitespace.  Defined structurally over the character list so it computes
in the kernel. -/
def pyStrip (s : String) : String :=
  ⟨((s.data.dropWhile Char.isWhitespace).reverse.dropWhile
      Char.isWhitespace).reverse⟩

/-- Python's `a or b` on an optional string: `None` and `""` both fall
through to `b`. -/
def pyOr (a : Option String) (b : String) : String :=
  match a with
  | some s => if s = "" then b else s
  | none => b

/-- `row.get("text") or row.get("sentence") or row.get("source") or ""`. -/
def rowText (r : Row) : String :=
  pyOr r.text (pyOr r.sentence (pyOr r.source ""))

/-- `SELECT MAX(CAST(sentence_id AS INTEGER)) …`, with 0 for an empty
group, as in the code's `or`-default. -/
def maxSentenceId (st : List Item) : Nat :=
  st.foldl (fun m it => max m it.sentence_id) 0

/-- The row loop of `import_source_sentences`: strip each row's text,
skip it when empty or already in `existing`, otherwise allocate the next
id and record the text as seen.  Returns the new rows (in row order) and
`added_count`. -/
def importLoop (existing : List String) (cur : Nat) : List Row → List Item × Nat
  | [] => ([], 0)
  | r :: rs =>
    let t := pyStrip (rowText r)
    if t ≠ "" ∧ t ∉ existing then
      let rest := importLoop (t :: existing) (cur + 1) rs
      (⟨cur + 1, t, "unassigned", ""⟩ :: rest.1, rest.2 + 1)
    else
      importLoop existing cur rs

/-- `import_source_sentences`: validate, then insert the surviving rows
after the existing ones (an `executemany` of `INSERT`s) and return the
new table with `added_count`.  A validation failure raises before any
database access. -/
def import_source_sentences (u : Upload) (st : List Item) :
    Except String (List Item × Nat) :=
  match import_validate u with
  | some e => .error e
  | none =>
    let r := importLoop (st.map Item.text) (maxSentenceId st) u.rows
    .ok (st ++ r.1, r.2)

/-! ### Assignment engine -/

/-- `SELECT * FROM source_sentences WHERE language = ? AND
status = 'assigned' AND assigned_to = ?` followed by `fetchone()`:
the first matching row. -/
def findAssigned (username : String) (st : List Item) : Option Item :=
  st.find? fun it => it.status == "assigned" && it.assigned_to == username

/-- `SELECT * … WHERE status = 'unassigned' ORDER BY
CAST(sentence_id AS INTEGER) ASC LIMIT 1`: an unassigned row of minimal
numeric id (the first such, matching the stable scan). -/
def minUnassigned (st : List Item) : Option Item :=
  (st.filter fun it => it.status == "unassigned").argmin Item.sentence_id

/-- `UPDATE source_sentences SET status = 'assigned', assigned_to = ?
WHERE language = ? AND sentence_id = ?`. -/
def assign_update (username : String) (id : Nat) (st : List Item) : List Item :=
  st.map fun it =>
    if it.sentence_id = id then
      { it with status := "assigned", assigned_to := username }
    else it

/-- `pop_next_sentence_for_lang` (one serialized transaction): return the
caller's already-assigned row unchanged if any; otherwise claim the
unassigned row of least id; otherwise return nothing.  Result is the
returned row (with the updated fields, as the code patches the dict) and
the table afterwards. -/
def pop_next_sentence_for_lang (username : String) (st : List Item) :
    Option Item × List Item :=
  match findAssigned username st with
  | some row => (some row, st)
  | none =>
    match minUnassigned st with
    | some row =>
      (some { row with status := "assigned", assigned_to := username },
       assign_update username row.sentence_id st)
    | none => (none, st)

/-- `UPDATE source_sentences SET status = 'completed' WHERE language = ?
AND sentence_id = ?` — note: `assigned_to` is not touched. -/
def mark_sentence_completed (id : Nat) (st : List Item) : List Item :=
  st.map fun it =>
    if it.sentence_id = id then { it with status := "completed" } else it

/-- `UPDATE source_sentences SET status = 'unassigned', assigned_to = ''
WHERE language = ? AND sentence_id = ?` — unconditional on the current
status. -/
def unassign_sentence (id : Nat) (st : List Item) : List Item :=
  st.map fun it =>
    if it.sentence_id = id then
      { it with status := "unassigned", assigned_to := "" }
    else it

/-- `append_translation`: one `INSERT` into `translations`. -/
def append_translation (id : Nat) (source_text translated_text username : String)
    (ledger : List LedgerEntry) : List LedgerEntry :=
  ledger ++ [⟨id, source_text, translated_text, username⟩]

/-- The state mutation of the `POST /annotator/submit` handler
(`main.annotator_submit`): on `action = "cancel"` release the row; on an
empty (after strip) translation redisplay the form without mutating; else
append the ledger row — with the caller-supplied `source_text` — and mark
the sentence completed.  No precondition on the row's status or owner is
checked anywhere on this path. -/
def annotator_submit (sentence_id : Nat)
    (source_text translated_text username action : String)
    (s : ServerState) : ServerState :=
  if action = "cancel" then
    { s with items := unassign_sentence sentence_id s.items }
  else
    let tt := pyStrip translated_text
    if tt = "" then s
    else
      { items := mark_sentence_completed sentence_id s.items,
        ledger := append_translation sentence_id source_text tt username s.ledger }

/-! ### Stats aggregator -/

/-- `SELECT COUNT(*) … WHERE status != 'completed'`. -/
def count_remaining_sentences (st : List Item) : Nat :=
  (st.filter fun it => it.status != "completed").length

/-- The per-language row of `get_language_stats`:
`(total, completed, remaining)` as computed by its `COUNT`/`SUM(CASE)`
aggregates. -/
def get_language_stats (st : List Item) : Nat × Nat × Nat :=
  (st.length,
   (st.filter fun it => it.status == "completed").length,
   (st.filter fun it => it.status != "completed").length)

/-! ### Operation sequences -/

/-- One engine operation, as invoked by the web shell for a fixed
language. -/
inductive EngineOp where
  | importData (u : Upload)
  | claimNext (worker : String)
  | release (sentence_id : Nat)
  | complete (sentence_id : Nat) (source_text translated_text worker : String)
deriving Repr, DecidableEq

/-- Apply one operation.  A failed import validation leaves the state
unchanged (the exception propagates before any database write). -/
def applyOp (s : ServerState) : EngineOp → ServerState
  | .importData u =>
    match import_source_sentences u s.items with
    | .error _ => s
    | .ok r => { s with items := r.1 }
  | .claimNext w => { s with items := (pop_next_sentence_for_lang w s.items).2 }
  | .release id => { s with items := unassign_sentence id s.items }
  | .complete id src tr w => annotator_submit id src tr w "save" s

/-- Run a sequence of operations from the empty store. -/
def runOps (ops : List EngineOp) : ServerState :=
  ops.foldl applyOp ⟨[], []⟩

/-- The sentence ids of a table, in row order. -/
def idsOf (st : List Item) : List Nat := st.map Item.sentence_id

/-- The part of the spec's status/assigned_to invariant that the code
maintains: `unassigned` rows have empty `assigned_to`, `assigned` rows
have non-empty `assigned_to`.  (The code does not maintain the converse
for `completed` rows: `mark_sentence_completed` keeps `assigned_to`.) -/
def StatusAssignedToInv (st : List Item) : Prop :=
  ∀ it ∈ st, (it.status = "unassigned" → it.assigned_to = "") ∧
             (it.status = "assigned" → it.assigned_to ≠ "")

/-- Every `claimNext` in the sequence is invoked with a non-empty worker
name (the shell only passes authenticated usernames). -/
def claimWorkersNonempty : List EngineOp → Prop
  | [] => True
  | .claimNext w :: ops => w ≠ "" ∧ claimWorkersNonempty ops
  | _ :: ops => claimWorkersNonempty ops

/-- The ids of a table are exactly `1, 2, …, n` in insertion order,
where `n` is the number of rows. -/
def IdsConsecutive (st : List Item) : Prop :=
  idsOf st = List.range' 1 st.length

/-! ## Helper lemmas -/

theorem importLoop_nil (existing : List String) (cur : Nat) :
    importLoop existing cur [] = ([], 0) := rfl

theorem importLoop_cons_pos {existing : List String} {r : Row} (rs : List Row)
    {cur : Nat} (h : pyStrip (rowText r) ≠ "" ∧ pyStrip (rowText r) ∉ existing) :
    importLoop existing cur (r :: rs) =
      (⟨cur + 1, pyStrip (rowText r), "unassigned", ""⟩ ::
         (importLoop (pyStrip (rowText r) :: existing) (cur + 1) rs).1,
       (importLoop (pyStrip (rowText r) :: existing) (cur + 1) rs).2 + 1) := by
  simp only [importLoop]
  rw [if_pos h]

theorem importLoop_cons_neg {existing : List String} {r : Row} (rs : List Row)
    {cur : Nat}
    (h : ¬(pyStrip (rowText r) ≠ "" ∧ pyStrip (rowText r) ∉ existing)) :
    importLoop existing cur (r :: rs) = importLoop existing cur rs := by
  simp only [importLoop]
  rw [if_neg h]

/-- Every row inserted by the import loop is `unassigned` with empty
`assigned_to`, has a non-empty text absent from the pre-existing texts,
and its text is the stripped text of some uploaded row. -/
theorem importLoop_mem {existing : List String} {cur : Nat} {rows : List Row} :
    ∀ it ∈ (importLoop existing cur rows).1,
      it.status = "unassigned" ∧ it.assigned_to = "" ∧ it.text ≠ "" ∧
      it.text ∉ existing ∧ ∃ r ∈ rows, it.text = pyStrip (rowText r) := by
  induction rows generalizing existing cur with
  | nil => intro it h; simp [importLoop_nil] at h
  | cons r rs ih =>
    intro it hmem
    by_cases hc : pyStrip (rowText r) ≠ "" ∧ pyStrip (rowText r) ∉ existing
    · rw [importLoop_cons_pos rs hc] at hmem
      rcases List.mem_cons.mp hmem with rfl | hmem'
      · exact ⟨rfl, rfl, hc.1, hc.2, r, List.mem_cons_self r rs, rfl⟩
      · obtain ⟨h1, h2, h3, h4, rr, hrr, h5⟩ := ih it hmem'
        exact ⟨h1, h2, h3, fun hx => h4 (List.mem_cons_of_mem _ hx),
               rr, List.mem_cons_of_mem r hrr, h5⟩
    · rw [importLoop_cons_neg rs hc] at hmem
      obtain ⟨h1, h2, h3, h4, rr, hrr, h5⟩ := ih it hmem
      exact ⟨h1, h2, h3, h4, rr, List.mem_cons_of_mem r hrr, h5⟩

/-- `added_count` is the number of rows actually inserted. -/
theorem importLoop_length {existing : List String} {cur : Nat} {rows : List Row} :
    (importLoop existing cur rows).1.length = (importLoop existing cur rows).2 := by
  induction rows generalizing existing cur with
  | nil => simp [importLoop_nil]
  | cons r rs ih =>
    by_cases hc : pyStrip (rowText r) ≠ "" ∧ pyStrip (rowText r) ∉ existing
    · rw [importLoop_cons_pos rs hc]
      simp [ih]
    · rw [importLoop_cons_neg rs hc]
      exact ih

/-- Duplicate texts within one upload collapse: the inserted texts are
pairwise distinct. -/
theorem importLoop_texts_nodup {existing : List String} {cur : Nat}
    {rows : List Row} :
    ((importLoop existing cur rows).1.map Item.text).Nodup := by
  induction rows generalizing existing cur with
  | nil => simp [importLoop_nil]
  | cons r rs ih =>
    by_cases hc : pyStrip (rowText r) ≠ "" ∧ pyStrip (rowText r) ∉ existing
    · rw [importLoop_cons_pos rs hc]
      simp only [List.map_cons]
      refine List.nodup_cons.mpr ⟨?_, ih⟩
      intro hmem
      obtain ⟨it, hit, htext⟩ := List.mem_map.mp hmem
      have habs := (importLoop_mem it hit).2.2.2.1
      exact habs (htext ▸ List.mem_cons_self _ _)
    · rw [importLoop_cons_neg rs hc]
      exact ih

/-- The inserted ids are consecutive, continuing from `cur`, in row
order. -/
theorem importLoop_ids {existing : List String} {cur : Nat} {rows : List Row} :
    (importLoop existing cur rows).1.map Item.sentence_id =
      List.range' (cur + 1) (importLoop existing cur rows).1.length := by
  induction rows generalizing existing cur with
  | nil => simp [importLoop_nil]
  | cons r rs ih =>
    by_cases hc : pyStrip (rowText r) ≠ "" ∧ pyStrip (rowText r) ∉ existing
    · rw [importLoop_cons_pos rs hc]
      simp only [List.map_cons, List.length_cons, List.range'_succ]
      rw [ih]
    · rw [importLoop_cons_neg rs hc]
      exact ih

/-- Inverting a successful import: the new table is the old one plus the
loop's rows, and the count is the loop's count. -/
theorem import_ok_inversion {u : Upload} {st st' : List Item} {n : Nat}
    (h : import_source_sentences u st = .ok (st', n)) :
    st' = st ++ (importLoop (st.map Item.text) (maxSentenceId st) u.rows).1 ∧
    n = (importLoop (st.map Item.text) (maxSentenceId st) u.rows).2 := by
  unfold import_source_sentences at h
  cases hv : import_validate u with
  | some e => rw [hv] at h; cases h
  | none =>
    rw [hv] at h
    injection h with h2
    rw [Prod.mk.injEq] at h2
    exact ⟨h2.1.symm, h2.2.symm⟩

/-- After `applyOp` of an import, the ledger is untouched and the items
are either unchanged (failed validation) or the old ones plus the loop's
rows. -/
theorem applyOp_importData (u : Upload) (s : ServerState) :
    (applyOp s (.importData u)).ledger = s.ledger ∧
    ((applyOp s (.importData u)).items = s.items ∨
     (applyOp s (.importData u)).items =
       s.items ++
         (importLoop (s.items.map Item.text) (maxSentenceId s.items) u.rows).1) := by
  simp only [applyOp]
  cases h : import_source_sentences u s.items with
  | error e => exact ⟨rfl, .inl rfl⟩
  | ok r =>
    have h2 : import_source_sentences u s.items = .ok (r.1, r.2) := by rw [h]
    obtain ⟨h1, _⟩ := import_ok_inversion h2
    exact ⟨rfl, .inr h1⟩

/-- After `applyOp` of a claim, the ledger is untouched and the items are
either unchanged or an `assign_update` at some id. -/
theorem applyOp_claimNext (w : String) (s : ServerState) :
    (applyOp s (.claimNext w)).ledger = s.ledger ∧
    ((applyOp s (.claimNext w)).items = s.items ∨
     ∃ id, (applyOp s (.claimNext w)).items = assign_update w id s.items) := by
  simp only [applyOp, pop_next_sentence_for_lang]
  cases findAssigned w s.items with
  | some row => exact ⟨by trivial, .inl (by trivial)⟩
  | none =>
    cases minUnassigned s.items with
    | some row => exact ⟨by trivial, .inr ⟨row.sentence_id, by trivial⟩⟩
    | none => exact ⟨by trivial, .inl (by trivial)⟩

/-- After `applyOp` of a complete, either nothing changed (empty
translation) or the items got a `mark_sentence_completed` and the ledger
one appended entry. -/
theorem applyOp_complete (id : Nat) (src tr w : String) (s : ServerState) :
    applyOp s (.complete id src tr w) = s ∨
    ((applyOp s (.complete id src tr w)).items =
        mark_sentence_completed id s.items ∧
     (applyOp s (.complete id src tr w)).ledger =
        s.ledger ++ [⟨id, src, pyStrip tr, w⟩]) := by
  simp only [applyOp, annotator_submit]
  rw [if_neg (by decide : ¬("save" = "cancel"))]
  by_cases h : pyStrip tr = ""
  · rw [if_pos h]
    exact .inl rfl
  · rw [if_neg h]
    exact .inr ⟨rfl, rfl⟩

theorem inv_append {st new : List Item}
    (hs : StatusAssignedToInv st)
    (hnew : ∀ it ∈ new, it.status = "unassigned" ∧ it.assigned_to = "") :
    StatusAssignedToInv (st ++ new) := by
  intro it hit
  rcases List.mem_append.mp hit with h | h
  · exact hs it h
  · obtain ⟨h1, h2⟩ := hnew it h
    exact ⟨fun _ => h2, fun hc => absurd (h1.symm.trans hc) (by decide)⟩

theorem inv_assign_update {st : List Item} {w : String} (hw : w ≠ "")
    (id : Nat) (hs : StatusAssignedToInv st) :
    StatusAssignedToInv (assign_update w id st) := by
  intro it hit
  obtain ⟨jt, hjt, rfl⟩ := List.mem_map.mp hit
  by_cases h : jt.sentence_id = id
  · simp only [if_pos h]
    exact ⟨fun hc => absurd hc (by decide), fun _ => hw⟩
  · simp only [if_neg h]
    exact hs jt hjt

theorem inv_unassign {st : List Item} (id : Nat)
    (hs : StatusAssignedToInv st) :
    StatusAssignedToInv (unassign_sentence id st) := by
  intro it hit
  obtain ⟨jt, hjt, rfl⟩ := List.mem_map.mp hit
  by_cases h : jt.sentence_id = id
  · simp only [if_pos h]
    exact ⟨fun _ => by trivial, fun hc => absurd hc (by decide)⟩
  · simp only [if_neg h]
    exact hs jt hjt

theorem inv_mark {st : List Item} (id : Nat)
    (hs : StatusAssignedToInv st) :
    StatusAssignedToInv (mark_sentence_completed id st) := by
  intro it hit
  obtain ⟨jt, hjt, rfl⟩ := List.mem_map.mp hit
  by_cases h : jt.sentence_id = id
  · simp only [if_pos h]
    exact ⟨fun hc => absurd hc (by decide), fun hc => absurd hc (by decide)⟩
  · simp only [if_neg h]
    exact hs jt hjt

theorem claimWorkersNonempty_cons {op : EngineOp} {ops : List EngineOp}
    (h : claimWorkersNonempty (op :: ops)) :
    (∀ w, op = .claimNext w → w ≠ "") ∧ claimWorkersNonempty ops := by
  cases op with
  | claimNext w =>
    obtain ⟨h1, h2⟩ := h
    refine ⟨?_, h2⟩
    rintro w' hw'
    injection hw' with h3
    exact h3 ▸ h1
  | importData u => exact ⟨fun w hw => (by cases hw), h⟩
  | release id => exact ⟨fun w hw => (by cases hw), h⟩
  | complete id src tr w => exact ⟨fun w hw => (by cases hw), h⟩

theorem applyOp_preserves_inv {s : ServerState} {op : EngineOp}
    (hop : ∀ w, op = .claimNext w → w ≠ "")
    (hs : StatusAssignedToInv s.items) :
    StatusAssignedToInv (applyOp s op).items := by
  cases op with
  | importData u =>
    rcases (applyOp_importData u s).2 with h | h
    · rw [h]; exact hs
    · rw [h]
      exact inv_append hs fun it hit =>
        ⟨(importLoop_mem it hit).1, (importLoop_mem it hit).2.1⟩
  | claimNext w =>
    rcases (applyOp_claimNext w s).2 with h | ⟨id, h⟩
    · rw [h]; exact hs
    · rw [h]; exact inv_assign_update (hop w rfl) id hs
  | release id =>
    exact inv_unassign id hs
  | complete id src tr w =>
    rcases applyOp_complete id src tr w s with h | ⟨h, _⟩
    · rw [h]; exact hs
    · rw [h]; exact inv_mark id hs

theorem foldl_preserves_inv (ops : List EngineOp) :
    ∀ s : ServerState, claimWorkersNonempty ops → StatusAssignedToInv s.items →
      StatusAssignedToInv (ops.foldl applyOp s).items := by
  induction ops with
  | nil => exact fun s _ hs => hs
  | cons op ops ih =>
    intro s hw hs
    obtain ⟨h1, h2⟩ := claimWorkersNonempty_cons hw
    exact ih (applyOp s op) h2 (applyOp_preserves_inv h1 hs)

theorem foldl_max_range' (n : Nat) : (List.range' 1 n).foldl max 0 = n := by
  induction n with
  | zero => rfl
  | succ n ih =>
    have hconc : List.range' 1 (n + 1) = List.range' 1 n ++ [1 + n] := by
      simpa using List.range'_1_concat 1 n
    rw [hconc, List.foldl_append, ih]
    simp [Nat.max_def]
    omega

/-- On a table with consecutive ids `1 … n`, the stored maximum id is the
row count. -/
theorem maxSentenceId_of_consecutive {st : List Item}
    (h : IdsConsecutive st) : maxSentenceId st = st.length := by
  have hfold : maxSentenceId st = (idsOf st).foldl max 0 := by
    simp [maxSentenceId, idsOf, List.foldl_map]
  rw [hfold, h, foldl_max_range']

/-- A per-row update that keeps `sentence_id` keeps the id list. -/
theorem idsOf_map {f : Item → Item}
    (hf : ∀ it, (f it).sentence_id = it.sentence_id) (st : List Item) :
    idsOf (st.map f) = idsOf st := by
  simp only [idsOf, List.map_map]
  exact List.map_congr_left fun it _ => hf it

theorem idsOf_assign_update (w : String) (id : Nat) (st : List Item) :
    idsOf (assign_update w id st) = idsOf st :=
  idsOf_map (fun it => by by_cases h : it.sentence_id = id <;> simp [h]) st

theorem idsOf_mark (id : Nat) (st : List Item) :
    idsOf (mark_sentence_completed id st) = idsOf st :=
  idsOf_map (fun it => by by_cases h : it.sentence_id = id <;> simp [h]) st

theorem idsOf_unassign (id : Nat) (st : List Item) :
    idsOf (unassign_sentence id st) = idsOf st :=
  idsOf_map (fun it => by by_cases h : it.sentence_id = id <;> simp [h]) st

/-- A per-row update that keeps `sentence_id` keeps `IdsConsecutive`. -/
theorem idsConsecutive_of_idsOf_eq {st st' : List Item}
    (hids : idsOf st' = idsOf st) (h : IdsConsecutive st) :
    IdsConsecutive st' := by
  have hlen : st'.length = st.length := by
    have := congrArg List.length hids
    simpa [idsOf] using this
  unfold IdsConsecutive
  rw [hids, hlen]
  exact h

theorem idsConsecutive_append_import {st : List Item} {u : Upload}
    (h : IdsConsecutive st) :
    IdsConsecutive
      (st ++ (importLoop (st.map Item.text) (maxSentenceId st) u.rows).1) := by
  unfold IdsConsecutive at h ⊢
  rw [idsOf, List.map_append, List.length_append]
  show idsOf st ++
      (importLoop (st.map Item.text) (maxSentenceId st) u.rows).1.map
        Item.sentence_id = _
  rw [h, importLoop_ids, maxSentenceId_of_consecutive h]
  have := List.range'_append 1 st.length
    (importLoop (st.map Item.text) st.length u.rows).1.length 1
  simpa [Nat.add_comm] using this

theorem applyOp_preserves_ids {s : ServerState} (op : EngineOp)
    (h : IdsConsecutive s.items) : IdsConsecutive (applyOp s op).items := by
  cases op with
  | importData u =>
    rcases (applyOp_importData u s).2 with he | he
    · rw [he]; exact h
    · rw [he]; exact idsConsecutive_append_import h
  | claimNext w =>
    rcases (applyOp_claimNext w s).2 with he | ⟨id, he⟩
    · rw [he]; exact h
    · rw [he]
      exact idsConsecutive_of_idsOf_eq (idsOf_assign_update w id s.items) h
  | release id =>
    exact idsConsecutive_of_idsOf_eq (idsOf_unassign id s.items) h
  | complete id src tr w =>
    rcases applyOp_complete id src tr w s with he | ⟨he, _⟩
    · rw [he]; exact h
    · rw [he]
      exact idsConsecutive_of_idsOf_eq (idsOf_mark id s.items) h

theorem foldl_preserves_ids (ops : List EngineOp) :
    ∀ s : ServerState, IdsConsecutive s.items →
      IdsConsecutive (ops.foldl applyOp s).items := by
  induction ops with
  | nil => exact fun s h => h
  | cons op ops ih =>
    exact fun s h => ih (applyOp s op) (applyOp_preserves_ids op h)

/-- `find?` returns the unique satisfying element. -/
theorem find?_eq_some_of_unique {α : Type _} {p : α → Bool} {l : List α}
    {a : α} (ha : a ∈ l) (hpa : p a = true)
    (huniq : ∀ x ∈ l, p x = true → x = a) :
    l.find? p = some a := by
  induction l with
  | nil => cases ha
  | cons x xs ih =>
    by_cases hx : p x = true
    · have hxa : x = a := huniq x (List.mem_cons_self x xs) hx
      subst hxa
      exact List.find?_cons_of_pos xs hx
    · have hne : x ≠ a := fun h => hx (h ▸ hpa)
      have ha' : a ∈ xs := by
        rcases List.mem_cons.mp ha with h | h
        · exact absurd h.symm hne
        · exact h
      rw [List.find?_cons_of_neg xs hx]
      exact ih ha' fun y hy hpy => huniq y (List.mem_cons_of_mem x hy) hpy

theorem findAssigned_none_iff {w : String} {st : List Item} :
    findAssigned w st = none ↔
      ∀ it ∈ st, ¬(it.status = "assigned" ∧ it.assigned_to = w) := by
  unfold findAssigned
  rw [List.find?_eq_none]
  constructor
  · intro h it hit hc
    exact h it hit (by simp [hc.1, hc.2])
  · intro h it hit hp
    rw [Bool.and_eq_true, beq_iff_eq, beq_iff_eq] at hp
    exact h it hit ⟨hp.1, hp.2⟩

theorem minUnassigned_mem {st : List Item} {m : Item}
    (h : minUnassigned st = some m) :
    m ∈ st ∧ m.status = "unassigned" := by
  have hmem := List.argmin_mem h
  have := List.mem_filter.mp hmem
  exact ⟨this.1, by simpa using this.2⟩

theorem minUnassigned_min {st : List Item} {m : Item}
    (h : minUnassigned st = some m) :
    ∀ jt ∈ st, jt.status = "unassigned" → m.sentence_id ≤ jt.sentence_id := by
  intro jt hjt hstatus
  have hjt' : jt ∈ st.filter fun it => it.status == "unassigned" :=
    List.mem_filter.mpr ⟨hjt, by simp [hstatus]⟩
  exact List.le_of_mem_argmin hjt' h

theorem minUnassigned_none_iff {st : List Item} :
    minUnassigned st = none ↔ ∀ it ∈ st, it.status ≠ "unassigned" := by
  unfold minUnassigned
  rw [List.argmin_eq_none, List.filter_eq_nil_iff]
  constructor
  · intro h it hit hc
    exact h it hit (by simp [hc])
  · intro h it hit hp
    exact h it hit (by simpa using hp)

/-- After claiming row `m` for `w` in a table with unique ids in which
`w` held no row, the lookup for `w`'s assigned row finds exactly the
updated `m`. -/
theorem findAssigned_assign_update {w : String} {st : List Item} {m : Item}
    (hm : m ∈ st) (hnd : (st.map Item.sentence_id).Nodup)
    (hnone : findAssigned w st = none) :
    findAssigned w (assign_update w m.sentence_id st) =
      some { m with status := "assigned", assigned_to := w } := by
  apply find?_eq_some_of_unique
  · exact List.mem_map.mpr ⟨m, hm, by simp⟩
  · simp
  · intro x hx hpx
    obtain ⟨y, hy, rfl⟩ := List.mem_map.mp hx
    by_cases hid : y.sentence_id = m.sentence_id
    · have hym : y = m := List.inj_on_of_nodup_map hnd hy hm hid
      subst hym
      simp
    · simp only [if_neg hid] at hpx ⊢
      rw [Bool.and_eq_true, beq_iff_eq, beq_iff_eq] at hpx
      exact absurd ⟨hpx.1, hpx.2⟩ (findAssigned_none_iff.mp hnone y hy)

/-! ## Theorems -/

/-- C9: `GroupProgress` returns `total` = number of item rows, `completed`
= number of rows with status `completed`, and `remaining = total -
completed`, counting both `unassigned` and `assigned` rows; on a group of
10 items with 3 `completed` and 2 `assigned` it returns `(10, 3, 7)`.
`count_remaining_sentences` agrees with the `remaining` component. -/
theorem get_language_stats_spec (st : List Item) :
    (get_language_stats st).1 = st.length ∧
    (get_language_stats st).2.1 =
      (st.filter fun it => it.status == "completed").length ∧
    (get_language_stats st).2.2 =
      st.length - (st.filter fun it => it.status == "completed").length ∧
    count_remaining_sentences st =
      st.length - (st.filter fun it => it.status == "completed").length ∧
    get_language_stats
      [⟨1, "a", "completed", ""⟩, ⟨2, "b", "completed", ""⟩,
       ⟨3, "c", "completed", ""⟩, ⟨4, "d", "assigned", "u"⟩,
       ⟨5, "e", "assigned", "v"⟩, ⟨6, "f", "unassigned", ""⟩,
       ⟨7, "g", "unassigned", ""⟩, ⟨8, "h", "unassigned", ""⟩,
       ⟨9, "i", "unassigned", ""⟩, ⟨10, "j", "unassigned", ""⟩] =
      (10, 3, 7) := by
  have hlen := @List.length_eq_length_filter_add Item st
    (fun it => it.status == "completed")
  refine ⟨rfl, rfl, ?_, ?_, by decide⟩
  · show (st.filter fun it => it.status != "completed").length = _
    simp only [bne]
    omega
  · show (st.filter fun it => it.status != "completed").length = _
    simp only [bne]
    omega

/-- C10: Import only inserts: the ledger is untouched and every
pre-existing item row survives unchanged at its position (the new table
is the old one with rows appended), whether the import succeeds, adds
zero rows, or fails validation. -/
theorem import_frame (u : Upload) (s : ServerState) :
    (applyOp s (.importData u)).ledger = s.ledger ∧
    ∃ tail, (applyOp s (.importData u)).items = s.items ++ tail := by
  obtain ⟨hl, hi⟩ := applyOp_importData u s
  refine ⟨hl, ?_⟩
  rcases hi with hi | hi
  · exact ⟨[], by simp [hi]⟩
  · exact ⟨_, hi⟩

/-- C1 fails on the code: `annotator_submit` checks no precondition.
Completing an item assigned to a different worker performs both
mutations and reports no error, and completing a nonexistent item
appends a ledger entry while transitioning nothing — the append and the
transition do not happen together. -/
theorem complete_unchecked_preconditions :
    annotator_submit 1 "src" "tr" "bob" "save"
        ⟨[⟨1, "src", "assigned", "alice"⟩], []⟩ =
      ⟨[⟨1, "src", "completed", "alice"⟩], [⟨1, "src", "tr", "bob"⟩]⟩ ∧
    annotator_submit 7 "src" "tr" "bob" "save" ⟨[], []⟩ =
      ⟨[], [⟨7, "src", "tr", "bob"⟩]⟩ := by
  exact ⟨rfl, rfl⟩

/-- C2 fails on the code: the ledger entry records the caller-supplied
source text verbatim, not the text stored in the item row — a tampered
payload corrupts the audit trail. -/
theorem complete_records_caller_text :
    (annotator_submit 1 "EVIL" "tr" "bob" "save"
        ⟨[⟨1, "hello", "assigned", "bob"⟩], []⟩).ledger =
      [⟨1, "EVIL", "tr", "bob"⟩] ∧
    "EVIL" ≠ "hello" := by
  exact ⟨rfl, by decide⟩

/-- C4 fails on the code: `unassign_sentence` resets a `completed` row to
`unassigned` with no error — reachably so, via import, claim, complete,
release — so `completed` is not terminal. -/
theorem release_resets_completed :
    unassign_sentence 1 [⟨1, "a", "completed", "w"⟩] =
      [⟨1, "a", "unassigned", ""⟩] ∧
    (runOps [.importData ⟨["text"], [⟨some "a", none, none⟩]⟩,
             .claimNext "w", .complete 1 "a" "t" "w", .release 1]).items =
      [⟨1, "a", "unassigned", ""⟩] := by
  exact ⟨rfl, rfl⟩

/-- C3 as stated is false: `mark_sentence_completed` does not clear
`assigned_to`, so a reachable state (import, claim, complete) holds a
`completed` row whose `assigned_to` is non-empty. -/
theorem status_iff_assigned_counterexample :
    (⟨1, "a", "completed", "w"⟩ : Item) ∈
      (runOps [.importData ⟨["text"], [⟨some "a", none, none⟩]⟩,
               .claimNext "w", .complete 1 "a" "t" "w"]).items ∧
    (⟨1, "a", "completed", "w"⟩ : Item).status ≠ "assigned" ∧
    (⟨1, "a", "completed", "w"⟩ : Item).assigned_to ≠ "" := by
  refine ⟨?_, by decide, by decide⟩
  show (⟨1, "a", "completed", "w"⟩ : Item) ∈ [⟨1, "a", "completed", "w"⟩]
  exact List.mem_singleton.mpr rfl

/-- C7: a successful import inserts exactly `n` rows (`n` the returned
count); every inserted row's text is some uploaded row's text stripped of
surrounding whitespace, is non-empty, differs from every text already
stored in the group, and the inserted texts are pairwise distinct
(duplicates within one upload collapse); importing
`["hello","hello","world"]` into an empty group yields items
`id=1 "hello"`, `id=2 "world"` with count 2, and re-importing the same
data afterwards yields count 0. -/
theorem import_dedup (u : Upload) (st st' : List Item) (n : Nat)
    (h : import_source_sentences u st = .ok (st', n)) :
    st'.length = st.length + n ∧
    ((st'.drop st.length).map Item.text).Nodup ∧
    (∀ it ∈ st'.drop st.length,
        it.text ≠ "" ∧ it.text ∉ st.map Item.text ∧
        ∃ r ∈ u.rows, it.text = pyStrip (rowText r)) ∧
    import_source_sentences
        ⟨["text"], [⟨some "hello", none, none⟩, ⟨some "hello", none, none⟩,
                    ⟨some "world", none, none⟩]⟩ [] =
      .ok ([⟨1, "hello", "unassigned", ""⟩, ⟨2, "world", "unassigned", ""⟩], 2) ∧
    import_source_sentences
        ⟨["text"], [⟨some "hello", none, none⟩, ⟨some "hello", none, none⟩,
                    ⟨some "world", none, none⟩]⟩
        [⟨1, "hello", "unassigned", ""⟩, ⟨2, "world", "unassigned", ""⟩] =
      .ok ([⟨1, "hello", "unassigned", ""⟩, ⟨2, "world", "unassigned", ""⟩], 0) := by
  obtain ⟨hst, hn⟩ := import_ok_inversion h
  subst hst
  rw [List.drop_left]
  refine ⟨?_, importLoop_texts_nodup, ?_, rfl, rfl⟩
  · rw [List.length_append, hn, importLoop_length]
  · intro it hit
    obtain ⟨h1, h2, h3, h4, h5⟩ := importLoop_mem it hit
    exact ⟨h3, h4, h5⟩

/-- Witness for `import_dedup`: the hello/hello/world example import. -/
theorem import_dedup_witness :
    ([⟨1, "hello", "unassigned", ""⟩, ⟨2, "world", "unassigned", ""⟩] :
        List Item).length = ([] : List Item).length + 2 ∧
    ((([⟨1, "hello", "unassigned", ""⟩, ⟨2, "world", "unassigned", ""⟩] :
        List Item).drop ([] : List Item).length).map Item.text).Nodup ∧
    (∀ it ∈ ([⟨1, "hello", "unassigned", ""⟩, ⟨2, "world", "unassigned", ""⟩] :
        List Item).drop ([] : List Item).length,
        it.text ≠ "" ∧ it.text ∉ ([] : List Item).map Item.text ∧
        ∃ r ∈ ([⟨some "hello", none, none⟩, ⟨some "hello", none, none⟩,
                ⟨some "world", none, none⟩] : List Row),
          it.text = pyStrip (rowText r)) ∧
    import_source_sentences
        ⟨["text"], [⟨some "hello", none, none⟩, ⟨some "hello", none, none⟩,
                    ⟨some "world", none, none⟩]⟩ [] =
      .ok ([⟨1, "hello", "unassigned", ""⟩, ⟨2, "world", "unassigned", ""⟩], 2) ∧
    import_source_sentences
        ⟨["text"], [⟨some "hello", none, none⟩, ⟨some "hello", none, none⟩,
                    ⟨some "world", none, none⟩]⟩
        [⟨1, "hello", "unassigned", ""⟩, ⟨2, "world", "unassigned", ""⟩] =
      .ok ([⟨1, "hello", "unassigned", ""⟩, ⟨2, "world", "unassigned", ""⟩], 0) :=
  import_dedup
    ⟨["text"], [⟨some "hello", none, none⟩, ⟨some "hello", none, none⟩,
                ⟨some "world", none, none⟩]⟩
    [] [⟨1, "hello", "unassigned", ""⟩, ⟨2, "world", "unassigned", ""⟩] 2 rfl

/-- C3 amended: in every state reachable by Import, ClaimNext (with
non-empty worker names), Release and Complete, every `unassigned` row has
empty `assigned_to` and every `assigned` row has non-empty `assigned_to`.
(The original iff fails for `completed` rows, which keep the completing
worker's name — see `status_iff_assigned_counterexample`.) -/
theorem status_assigned_invariant (ops : List EngineOp)
    (hw : claimWorkersNonempty ops) :
    StatusAssignedToInv (runOps ops).items :=
  foldl_preserves_inv ops ⟨[], []⟩ hw (fun it hit => by cases hit)

/-- Witness for `status_assigned_invariant`: a concrete import, claim,
complete, release run. -/
theorem status_assigned_invariant_witness :
    claimWorkersNonempty
      [.importData ⟨["text"], [⟨some "a", none, none⟩, ⟨some "b", none, none⟩]⟩,
       .claimNext "w", .complete 1 "a" "t" "w", .release 2] ∧
    StatusAssignedToInv
      (runOps
        [.importData ⟨["text"], [⟨some "a", none, none⟩, ⟨some "b", none, none⟩]⟩,
         .claimNext "w", .complete 1 "a" "t" "w", .release 2]).items :=
  ⟨⟨by decide, trivial⟩,
   status_assigned_invariant
     [.importData ⟨["text"], [⟨some "a", none, none⟩, ⟨some "b", none, none⟩]⟩,
      .claimNext "w", .complete 1 "a" "t" "w", .release 2]
     ⟨by decide, trivial⟩⟩

/-- C8: in every state reachable by any operation sequence from the
empty group, the ids are exactly `1, 2, …, n` in insertion order (no
gaps, no collisions, never reused, continuing from the current maximum);
concretely, importing 3 rows and then 3 more of which one is skipped as
a duplicate yields ids `[1, 2, 3, 4, 5]`. -/
theorem import_ids_monotone (ops : List EngineOp) :
    idsOf (runOps ops).items = List.range' 1 (runOps ops).items.length ∧
    idsOf (runOps
      [.importData ⟨["text"], [⟨some "a", none, none⟩, ⟨some "b", none, none⟩,
                               ⟨some "c", none, none⟩]⟩,
       .importData ⟨["text"], [⟨some "c", none, none⟩, ⟨some "d", none, none⟩,
                               ⟨some "e", none, none⟩]⟩]).items =
      [1, 2, 3, 4, 5] :=
  ⟨foldl_preserves_ids ops ⟨[], []⟩ rfl, by decide⟩

/-- C5: for a worker holding no `assigned` item in the group, ClaimNext
returns nothing and mutates no row when no `unassigned` item exists, and
otherwise returns an `unassigned` item of numerically smallest id,
transitioned to `assigned` with `assigned_to = worker`, the table updated
exactly at that id. -/
theorem claimNext_fresh (w : String) (st : List Item)
    (hw : ∀ it ∈ st, ¬(it.status = "assigned" ∧ it.assigned_to = w)) :
    ((∀ it ∈ st, it.status ≠ "unassigned") →
        pop_next_sentence_for_lang w st = (none, st)) ∧
    ((∃ it ∈ st, it.status = "unassigned") →
        ∃ m ∈ st, m.status = "unassigned" ∧
          (∀ jt ∈ st, jt.status = "unassigned" →
              m.sentence_id ≤ jt.sentence_id) ∧
          pop_next_sentence_for_lang w st =
            (some { m with status := "assigned", assigned_to := w },
             assign_update w m.sentence_id st)) := by
  have hfind : findAssigned w st = none := findAssigned_none_iff.mpr hw
  constructor
  · intro hnone
    have hmin : minUnassigned st = none := minUnassigned_none_iff.mpr hnone
    simp [pop_next_sentence_for_lang, hfind, hmin]
  · rintro ⟨it, hit, hstatus⟩
    cases hminu : minUnassigned st with
    | none => exact absurd hstatus (minUnassigned_none_iff.mp hminu it hit)
    | some m =>
      obtain ⟨hm_mem, hm_un⟩ := minUnassigned_mem hminu
      refine ⟨m, hm_mem, hm_un, minUnassigned_min hminu, ?_⟩
      simp [pop_next_sentence_for_lang, hfind, hminu]

/-- Witness for `claimNext_fresh`: a three-row table in which worker `w`
holds nothing and rows 2 and 3 are unassigned. -/
theorem claimNext_fresh_witness :
    (∀ it ∈ ([⟨1, "a", "completed", "x"⟩, ⟨2, "b", "unassigned", ""⟩,
              ⟨3, "c", "unassigned", ""⟩] : List Item),
        ¬(it.status = "assigned" ∧ it.assigned_to = "w")) ∧
    (((∀ it ∈ ([⟨1, "a", "completed", "x"⟩, ⟨2, "b", "unassigned", ""⟩,
                ⟨3, "c", "unassigned", ""⟩] : List Item),
          it.status ≠ "unassigned") →
        pop_next_sentence_for_lang "w"
            [⟨1, "a", "completed", "x"⟩, ⟨2, "b", "unassigned", ""⟩,
             ⟨3, "c", "unassigned", ""⟩] =
          (none, [⟨1, "a", "completed", "x"⟩, ⟨2, "b", "unassigned", ""⟩,
                  ⟨3, "c", "unassigned", ""⟩])) ∧
     ((∃ it ∈ ([⟨1, "a", "completed", "x"⟩, ⟨2, "b", "unassigned", ""⟩,
                ⟨3, "c", "unassigned", ""⟩] : List Item),
          it.status = "unassigned") →
        ∃ m ∈ ([⟨1, "a", "completed", "x"⟩, ⟨2, "b", "unassigned", ""⟩,
                ⟨3, "c", "unassigned", ""⟩] : List Item),
          m.status = "unassigned" ∧
          (∀ jt ∈ ([⟨1, "a", "completed", "x"⟩, ⟨2, "b", "unassigned", ""⟩,
                    ⟨3, "c", "unassigned", ""⟩] : List Item),
              jt.status = "unassigned" →
              m.sentence_id ≤ jt.sentence_id) ∧
          pop_next_sentence_for_lang "w"
              [⟨1, "a", "completed", "x"⟩, ⟨2, "b", "unassigned", ""⟩,
               ⟨3, "c", "unassigned", ""⟩] =
            (some { m with status := "assigned", assigned_to := "w" },
             assign_update "w" m.sentence_id
               [⟨1, "a", "completed", "x"⟩, ⟨2, "b", "unassigned", ""⟩,
                ⟨3, "c", "unassigned", ""⟩]))) :=
  ⟨by decide,
   claimNext_fresh "w"
     [⟨1, "a", "completed", "x"⟩, ⟨2, "b", "unassigned", ""⟩,
      ⟨3, "c", "unassigned", ""⟩] (by decide)⟩

/-- C6: ClaimNext is idempotent: if the worker's held `assigned` item is
unique, ClaimNext returns it and changes nothing; and in any table with
distinct ids, two consecutive ClaimNext calls (no Release or Complete in
between) return the identical result. -/
theorem claimNext_idempotent (w : String) (st : List Item)
    (hnd : (st.map Item.sentence_id).Nodup) :
    (∀ it ∈ st, it.status = "assigned" → it.assigned_to = w →
       (∀ jt ∈ st, jt.status = "assigned" → jt.assigned_to = w → jt = it) →
       pop_next_sentence_for_lang w st = (some it, st)) ∧
    (pop_next_sentence_for_lang w (pop_next_sentence_for_lang w st).2).1 =
      (pop_next_sentence_for_lang w st).1 := by
  constructor
  · intro it hit hstatus hto huniq
    have hfind : findAssigned w st = some it := by
      apply find?_eq_some_of_unique hit (by simp [hstatus, hto])
      intro x hx hpx
      rw [Bool.and_eq_true, beq_iff_eq, beq_iff_eq] at hpx
      exact huniq x hx hpx.1 hpx.2
    simp [pop_next_sentence_for_lang, hfind]
  · cases hfind : findAssigned w st with
    | some row => simp [pop_next_sentence_for_lang, hfind]
    | none =>
      cases hminu : minUnassigned st with
      | none => simp [pop_next_sentence_for_lang, hfind, hminu]
      | some m =>
        obtain ⟨hm_mem, _⟩ := minUnassigned_mem hminu
        have hfind2 := findAssigned_assign_update hm_mem hnd hfind
        simp [pop_next_sentence_for_lang, hfind, hminu, hfind2]

/-- Witness for `claimNext_idempotent`: worker `w` holds row 1; both
conjuncts hold on the concrete two-row table. -/
theorem claimNext_idempotent_witness :
    (([⟨1, "a", "assigned", "w"⟩, ⟨2, "b", "unassigned", ""⟩] : List Item).map
        Item.sentence_id).Nodup ∧
    ((∀ it ∈ ([⟨1, "a", "assigned", "w"⟩, ⟨2, "b", "unassigned", ""⟩] :
          List Item),
        it.status = "assigned" → it.assigned_to = "w" →
        (∀ jt ∈ ([⟨1, "a", "assigned", "w"⟩, ⟨2, "b", "unassigned", ""⟩] :
            List Item),
            jt.status = "assigned" → jt.assigned_to = "w" → jt = it) →
        pop_next_sentence_for_lang "w"
            [⟨1, "a", "assigned", "w"⟩, ⟨2, "b", "unassigned", ""⟩] =
          (some it, [⟨1, "a", "assigned", "w"⟩, ⟨2, "b", "unassigned", ""⟩])) ∧
     (pop_next_sentence_for_lang "w"
          (pop_next_sentence_for_lang "w"
            [⟨1, "a", "assigned", "w"⟩, ⟨2, "b", "unassigned", ""⟩]).2).1 =
       (pop_next_sentence_for_lang "w"
          [⟨1, "a", "assigned", "w"⟩, ⟨2, "b", "unassigned", ""⟩]).1) :=
  ⟨by decide,
   claimNext_idempotent "w"
     [⟨1, "a", "assigned", "w"⟩, ⟨2, "b", "unassigned", ""⟩] (by decide)⟩

